import Mathlib

/-!
Verification model of the packet-bridge link layer in
`wgengine/netstack/link_endpoint.go`: the bounded, closeable FIFO queue of
reference-counted packet buffers (`queue`), the batch write loop
(`linkEndpoint.WritePackets`), teardown (`Close` / `Drain`), and the receive
checksum-offload validator (`rxChecksumOffload`).

Packets are modelled by natural-number identifiers; packet reference counts
are modelled by an explicit map from identifier to count, so that the
`IncRef` / `DecRef` calls of the Go code become visible state changes.
-/

/-- Increment of the reference count of packet `p`, mirroring
`stack.PacketBuffer.IncRef` applied to the packet sent into the channel. -/
def incRef (rc : Nat → Int) (p : Nat) : Nat → Int :=
  fun i => if i = p then rc i + 1 else rc i

/-- Decrement of the reference count of packet `p`, mirroring
`stack.PacketBuffer.DecRef`. -/
def decRef (rc : Nat → Int) (p : Nat) : Nat → Int :=
  fun i => if i = p then rc i - 1 else rc i

/-- Result of `queue.Write`: success, `tcpip.ErrClosedForSend`, or
`tcpip.ErrNoBufferSpace`. -/
inductive WriteResult where
  | ok
  | errClosedForSend
  | errNoBufferSpace
deriving DecidableEq, Repr

/-- State of the outbound packet queue (`queue` in link_endpoint.go): the
buffered channel contents in FIFO order (head is the oldest element), the
channel capacity, the `closed` flag, and the reference-count map of all
packets. -/
structure QState where
  c : List Nat
  cap : Nat
  closed : Bool
  rc : Nat → Int

/-- Mirrors `queue.Close`: sets the closed flag; the channel close is guarded
by the flag, so buffered elements are kept and a second call is a no-op. -/
def QState.close (q : QState) : QState :=
  { q with closed := true }

/-- Mirrors `queue.Read`: non-blocking receive with a `default` case. A
receive from the channel yields the oldest buffered element; when nothing is
buffered the result is nil (`none`), whether or not the channel is closed. -/
def QState.read (q : QState) : QState × Option Nat :=
  match q.c with
  | [] => (q, none)
  | p :: rest => ({ q with c := rest }, some p)

/-- Mirrors `queue.Write`: if the closed flag is set, fail with
`ErrClosedForSend` (before touching the packet); otherwise enter the
non-blocking send `select`. Go evaluates the send's right-hand side
`pkt.IncRef()` exactly once upon entering the `select`, irrespective of which
case proceeds: when space is available the channel keeps that reference and
the write succeeds; on the `default` (full) path `pkt.DecRef()` releases the
reference the `select` just took, so the failed write nets a reference-count
change of zero and returns `ErrNoBufferSpace`. -/
def QState.write (q : QState) (p : Nat) : QState × WriteResult :=
  if q.closed then (q, .errClosedForSend)
  else if q.c.length < q.cap then
    ({ q with c := q.c ++ [p], rc := incRef q.rc p }, .ok)
  else
    ({ q with rc := decRef (incRef q.rc p) p }, .errNoBufferSpace)

/-- Mirrors `queue.Num`: the number of buffered packets. -/
def QState.num (q : QState) : Nat :=
  q.c.length

/-- Possible outcomes of `queue.ReadContext` from state `q` with a context
whose done-channel is already closed iff `ctxDone`. The Go body is a `select`
over the packet channel and `ctx.Done()`; when several cases are ready the Go
runtime picks one pseudo-randomly, so the outcomes form a relation, not a
function: a buffered packet may be received, an already-fired context may
cancel the read, and a closed empty channel yields nil immediately. -/
inductive ReadCtxOutcome (q : QState) (ctxDone : Bool) : QState × Option Nat → Prop where
  | recv (p : Nat) (rest : List Nat) (h : q.c = p :: rest) :
      ReadCtxOutcome q ctxDone ({ q with c := rest }, some p)
  | cancelled (h : ctxDone = true) : ReadCtxOutcome q ctxDone (q, none)
  | closedEmpty (h1 : q.closed = true) (h2 : q.c = []) :
      ReadCtxOutcome q ctxDone (q, none)

/-- Effect on the reference-count map of the `Drain` loop consuming the listed
packets: each is read and `DecRef`ed once, and the drained packets are
counted. -/
def drainList : List Nat → (Nat → Int) → (Nat → Int) × Nat
  | [], rc => (rc, 0)
  | p :: rest, rc =>
    let r := drainList rest (decRef rc p)
    (r.1, r.2 + 1)

/-- Fuel-indexed loop of repeated `Read` calls collecting the returned
packets, stopping at the first nil result. -/
def readAllAux : Nat → QState → List Nat
  | 0, _ => []
  | fuel + 1, q =>
    match q.read with
    | (_, none) => []
    | (q', some p) => p :: readAllAux fuel q'

/-- Repeatedly `Read` until nil, collecting the packets returned, in order.
The fuel `q.c.length` is exact: each successful read removes one element. -/
def readAll (q : QState) : List Nat :=
  readAllAux q.c.length q

/-- Sequential `Write` of each packet of a list in order, collecting the
per-packet results. -/
def writeSeq : QState → List Nat → QState × List WriteResult
  | q, [] => (q, [])
  | q, p :: rest =>
    let r := q.write p
    let s := writeSeq r.1 rest
    (s.1, r.2 :: s.2)

/-- Fresh queue of capacity `cap`, as built by `newLinkEndpoint`: empty
channel, not closed, with all reference counts at an arbitrary baseline 0. -/
def emptyQ (cap : Nat) : QState :=
  ⟨[], cap, false, fun _ => 0⟩

/-- Loop body of `linkEndpoint.WritePackets` with explicit written-count
accumulator `n`: each packet is passed to `queue.Write`; on error, if the
error is not `ErrNoBufferSpace` and `n == 0` the call returns `(0, err)`,
otherwise the loop breaks and `(n, nil)` is returned. -/
def writePacketsGo : QState → List Nat → Nat → QState × Nat × Option WriteResult
  | q, [], n => (q, n, none)
  | q, p :: rest, n =>
    match (q.write p : QState × WriteResult) with
    | (q', .ok) => writePacketsGo q' rest (n + 1)
    | (q', .errNoBufferSpace) => (q', n, none)
    | (q', .errClosedForSend) =>
      if n = 0 then (q', 0, some .errClosedForSend) else (q', n, none)

/-- Mirrors `linkEndpoint.WritePackets` on the sequential queue state:
the loop over the batch starting with zero written. -/
def writePackets (q : QState) (pkts : List Nat) : QState × Nat × Option WriteResult :=
  writePacketsGo q pkts 0

/-- Error-handling skeleton of the `WritePackets` loop over an arbitrary
sequence of per-packet `queue.Write` outcomes (the outcomes are free, which
covers a queue closed concurrently in mid-batch): `.ok` increments the count,
`ErrNoBufferSpace` breaks with `(n, nil)`, and a non-backpressure error
returns `(0, err)` when nothing was written yet and otherwise breaks with
`(n, nil)`. -/
def writePacketsLoop : List WriteResult → Nat → Nat × Option WriteResult
  | [], n => (n, none)
  | .ok :: rest, n => writePacketsLoop rest (n + 1)
  | .errNoBufferSpace :: _, n => (n, none)
  | .errClosedForSend :: _, n =>
    if n = 0 then (0, some .errClosedForSend) else (n, none)

/-- State of `linkEndpoint`: the GSO kind, the dispatcher / link address / MTU
fields guarded by `mu`, the outbound queue, and the set of packets currently
buffered inside the GRO coalescer. The GRO internals live in a gVisor
dependency; here only its buffered-packet list is kept, which `Flush` empties
(modelled from the spec: a flush delivers all batched groups and clears the
batcher state). -/
structure LinkEndpoint where
  supportedGSOKind : Nat
  dispatcher : Option Nat
  linkAddr : List Nat
  mtu : Nat
  q : QState
  groBuf : List Nat

/-- Mirrors `linkEndpoint.Drain`: read packets off the queue until nil,
`DecRef`ing each and counting them; returns the new state and the count. -/
def LinkEndpoint.drain (l : LinkEndpoint) : LinkEndpoint × Nat :=
  let r := drainList l.q.c l.q.rc
  ({ l with q := { l.q with c := [], rc := r.1 } }, r.2)

/-- Mirrors `linkEndpoint.Close`: `l.q.Close()`, then `l.gro.Flush()` (which
empties the GRO buffer), then `l.Drain()` whose returned count is discarded —
the Go method has no return value. -/
def LinkEndpoint.close (l : LinkEndpoint) : LinkEndpoint :=
  ({ l with q := l.q.close, groBuf := [] }).drain.1

/-- Values `linkEndpoint.Close` returns or logs to its caller: the Go method
has signature `func (l *linkEndpoint) Close()` — no return value — and
contains no logging call, so the list of reported values is empty; in
particular the count produced by the `l.Drain()` call inside it is discarded. -/
def LinkEndpoint.closeOutputs (_l : LinkEndpoint) : List Nat :=
  []

/-- Single end-around-carry folding step of a one's-complement accumulator. -/
def foldStep (s : Nat) : Nat :=
  s % 65536 + s / 65536

/-- Fuel-indexed end-around-carry folding: add the carries above 16 bits back
into the low 16 bits until the value fits in 16 bits. Each step strictly
decreases a value of at least 65536, so fuel equal to the starting value is
always sufficient and the result is the true fixed point. -/
def onesFoldAux : Nat → Nat → Nat
  | 0, s => s
  | fuel + 1, s => if s < 65536 then s else onesFoldAux fuel (foldStep s)

/-- One's-complement folding of an accumulator to 16 bits with end-around
carry. -/
def onesFold (s : Nat) : Nat :=
  onesFoldAux s s

/-- Big-endian 16-bit words of a byte sequence; a dangling odd byte is padded
on the right, i.e. it contributes as the high-order byte of a final word. -/
def words16 : List Nat → List Nat
  | [] => []
  | [b] => [b * 256]
  | b1 :: b2 :: rest => (b1 * 256 + b2) :: words16 rest

/-- Modelled from the spec: the unfolded one's-complement accumulation of
wireguard-go `tun.Checksum` — the sum of the big-endian 16-bit words of the
bytes added onto an initial accumulator (no overflow occurs in the model's
unbounded naturals). -/
def checksumNoFold (bs : List Nat) (initial : Nat) : Nat :=
  initial + (words16 bs).sum

/-- Modelled from the spec: wireguard-go `tun.Checksum` — one's-complement
addition of the 16-bit big-endian words over the bytes with end-around carry,
starting from `initial`, folded to 16 bits. The spec describes this as the
header checksum computed "using one's-complement addition with end-around
carry". -/
def checksum (bs : List Nat) (initial : Nat) : Nat :=
  onesFold (checksumNoFold bs initial)

/-- Modelled from the spec: wireguard-go `tun.PseudoHeaderChecksum` — a
checksum accumulator "seeded from source address, destination address, and
payload length" (plus the protocol number, per the glossary's definition of
the pseudo-header), folded to 16 bits. -/
def pseudoHeaderChecksum (protocol : Nat) (srcAddr dstAddr : List Nat) (totalLen : Nat) : Nat :=
  let s1 := checksumNoFold srcAddr 0
  let s2 := checksumNoFold dstAddr s1
  let s3 := s2 + protocol
  onesFold (checksumNoFold [totalLen / 256, totalLen % 256] s3)

/-- Parsed view of a packet (`packet.Parsed`): the raw buffer bytes as
returned by `p.Buffer()`, the IP version field, the transport protocol
number, and the source and destination address bytes. -/
structure Parsed where
  buf : List Nat
  ipVersion : Nat
  ipProto : Nat
  src : List Nat
  dst : List Nat

/-- Validated packet handed to gVisor (`stack.PacketBuffer` as built by
`rxChecksumOffload`): the payload bytes (a clone of the input buffer), the
network protocol number, and the `RXChecksumValidated` mark. -/
structure PacketBuf where
  payload : List Nat
  networkProtocolNumber : Nat
  rxChecksumValidated : Bool
deriving DecidableEq, Repr

/-- The IPv4 header length derived in `rxChecksumOffload`:
`int((buf[0] & 0x0F) * 4)`, the low 4 bits of the first buffer byte times 4. -/
def ipv4HdrLen (buf : List Nat) : Nat :=
  (buf.headD 0 % 16) * 4

/-- The `switch p.IPVersion` of `rxChecksumOffload`, producing the checksum
start offset and network protocol number, or `none` for an early nil return:
IPv4 requires at least 20 bytes, a derived header length within [20, 60] and
within the buffer, and a header checksum complementing to zero
(`^tun.Checksum(buf[:csumStart], 0) != 0` rejects, i.e. the folded sum must
be 0xFFFF); IPv6 requires at least 40 bytes and starts the checksum domain at
byte 40; any other version leaves `csumStart = 0` and the protocol number at
its zero value. -/
def ipHdrStep (p : Parsed) : Option (Nat × Nat) :=
  if p.ipVersion = 4 then
    if p.buf.length < 20 then none
    else if ipv4HdrLen p.buf < 20 ∨ 60 < ipv4HdrLen p.buf ∨ p.buf.length < ipv4HdrLen p.buf then
      none
    else if checksum (p.buf.take (ipv4HdrLen p.buf)) 0 ≠ 65535 then none
    else some (ipv4HdrLen p.buf, 2048)
  else if p.ipVersion = 6 then
    if p.buf.length < 40 then none else some (40, 34525)
  else some (0, 0)

/-- Condition `p.IPProto == ipproto.TCP || p.IPProto == ipproto.UDP` setting
`csumRequired` in `rxChecksumOffload` (TCP is protocol 6, UDP is 17). -/
def needsTransportCsum (p : Parsed) : Bool :=
  decide (p.ipProto = 6) || decide (p.ipProto = 17)

/-- Mirrors `rxChecksumOffload`: derive the checksum start and protocol
number from the IP header (rejecting malformed headers), then, for TCP or
UDP, seed a pseudo-header checksum from the (truncated-to-uint8) protocol,
the source and destination addresses and the (truncated-to-uint16) length of
the transport segment, extend it over the bytes from `csumStart` on, and
reject unless the folded sum complements to zero; on acceptance build a
packet buffer whose payload is a clone of the input bytes, tagged with the
protocol number and marked `RXChecksumValidated`. -/
def rxChecksumOffload (p : Parsed) : Option PacketBuf :=
  match ipHdrStep p with
  | none => none
  | some (csumStart, pn) =>
    if needsTransportCsum p then
      if checksum (p.buf.drop csumStart)
          (pseudoHeaderChecksum (p.ipProto % 256) p.src p.dst
            ((p.buf.length - csumStart) % 65536)) ≠ 65535 then
        none
      else some ⟨p.buf, pn, true⟩
    else some ⟨p.buf, pn, true⟩

/-- Checksum start offset determined by the IP version, as set by the
`switch` in `rxChecksumOffload`: the derived header length for IPv4, 40 for
IPv6, and 0 otherwise. -/
def csumStartOf (p : Parsed) : Nat :=
  if p.ipVersion = 4 then ipv4HdrLen p.buf
  else if p.ipVersion = 6 then 40
  else 0

/-- Holds when the transport (pseudo-header) checksum over the bytes from the
version-determined start offset folds to 0xFFFF, i.e. complements to zero. -/
def transportCsumOk (p : Parsed) : Bool :=
  decide (checksum (p.buf.drop (csumStartOf p))
    (pseudoHeaderChecksum (p.ipProto % 256) p.src p.dst
      ((p.buf.length - csumStartOf p) % 65536)) = 65535)

/-- Holds when the IP-header-level validation of `rxChecksumOffload` passes:
for IPv4, the buffer reaches 20 bytes, the derived header length lies in
[20, 60] and within the buffer, and the header checksum complements to zero;
for IPv6, the buffer reaches 40 bytes; for any other version there is no
header validation. -/
def ipHeaderOk (p : Parsed) : Bool :=
  if p.ipVersion = 4 then
    decide (20 ≤ p.buf.length) && decide (20 ≤ ipv4HdrLen p.buf)
      && decide (ipv4HdrLen p.buf ≤ 60) && decide (ipv4HdrLen p.buf ≤ p.buf.length)
      && decide (checksum (p.buf.take (ipv4HdrLen p.buf)) 0 = 65535)
  else if p.ipVersion = 6 then decide (40 ≤ p.buf.length)
  else true

/-- Network protocol number assigned by the `switch` in `rxChecksumOffload`:
`header.IPv4ProtocolNumber` (0x0800) for version 4, `header.IPv6ProtocolNumber`
(0x86DD) for version 6, and the zero value otherwise. -/
def pnOf (p : Parsed) : Nat :=
  if p.ipVersion = 4 then 2048 else if p.ipVersion = 6 then 34525 else 0

/-- Concrete well-formed 20-byte IPv4 ICMP packet whose header checksum field
(bytes 10 and 11) makes the one's-complement sum of the header fold to
0xFFFF. -/
def pkt4 : Parsed :=
  ⟨[69, 0, 0, 20, 0, 0, 0, 0, 64, 1, 102, 231, 10, 0, 0, 1, 10, 0, 0, 2], 4, 1,
    [10, 0, 0, 1], [10, 0, 0, 2]⟩

/-- Concrete truncated IPv4 packet: a single buffer byte. -/
def pktShort : Parsed :=
  ⟨[1], 4, 6, [], []⟩

/-- Concrete truncated IPv6 packet: 39 buffer bytes, one short of the fixed
header. -/
def pktShort6 : Parsed :=
  ⟨List.replicate 39 0, 6, 17, [], []⟩

/-- Concrete packet whose IP version field is neither 4 nor 6 and whose
transport protocol is neither TCP nor UDP. -/
def pktOther : Parsed :=
  ⟨[1, 2, 3], 5, 47, [], []⟩

/-- Concrete open queue of capacity 1 already holding one packet. -/
def qFullC2 : QState :=
  ⟨[9], 1, false, fun _ => 0⟩

/-- Concrete closed queue holding one packet. -/
def qClosedC2 : QState :=
  ⟨[3], 2, true, fun _ => 0⟩

/-- Concrete closed empty queue of capacity 1. -/
def qClosedC4 : QState :=
  ⟨[], 1, true, fun _ => 0⟩

/-- Concrete open queue of capacity 1 already holding one packet. -/
def qFullC4 : QState :=
  ⟨[9], 1, false, fun _ => 0⟩

/-- Concrete open queue with one packet available. -/
def qAvail : QState :=
  ⟨[7], 4, false, fun _ => 0⟩

/-- Concrete open empty queue. -/
def qEmptyC6 : QState :=
  ⟨[], 4, false, fun _ => 0⟩

/-- Concrete link endpoint with two undelivered packets pending in its
outbound queue. -/
def lPend : LinkEndpoint :=
  ⟨0, none, [], 0, ⟨[4, 5], 8, false, fun _ => 1⟩, []⟩

theorem readAllAux_eq : ∀ (n : Nat) (q : QState), q.c.length ≤ n → readAllAux n q = q.c := by
  intro n
  induction n with
  | zero =>
    intro q h
    have hc : q.c = [] := List.eq_nil_of_length_eq_zero (Nat.le_zero.mp h)
    simp [readAllAux, hc]
  | succ n ih =>
    intro q h
    cases hc : q.c with
    | nil => simp [readAllAux, QState.read, hc]
    | cons p rest =>
      rw [hc] at h
      simp only [readAllAux, QState.read, hc]
      rw [ih { q with c := rest } (by simpa using Nat.le_of_succ_le_succ h)]

theorem readAll_eq (q : QState) : readAll q = q.c :=
  readAllAux_eq q.c.length q (Nat.le_refl _)

theorem writeSeq_open : ∀ (pkts : List Nat) (q : QState), q.closed = false →
    q.c.length + pkts.length ≤ q.cap →
    (writeSeq q pkts).2 = List.replicate pkts.length WriteResult.ok ∧
    (writeSeq q pkts).1.c = q.c ++ pkts := by
  intro pkts
  induction pkts with
  | nil =>
    intro q h1 h2
    simp [writeSeq]
  | cons p rest ih =>
    intro q h1 h2
    have hlt : q.c.length < q.cap := by
      simp only [List.length_cons] at h2
      omega
    have hw : q.write p = ({ q with c := q.c ++ [p], rc := incRef q.rc p }, WriteResult.ok) := by
      simp [QState.write, h1, hlt]
    obtain ⟨ihr, ihc⟩ := ih { q with c := q.c ++ [p], rc := incRef q.rc p } h1
      (by show (q.c ++ [p]).length + rest.length ≤ q.cap
          simp only [List.length_append, List.length_singleton]
          simp only [List.length_cons] at h2
          omega)
    constructor
    · simp only [writeSeq, hw, List.length_cons, List.replicate_succ]
      rw [ihr]
    · simp only [writeSeq, hw]
      rw [ihc]
      simp

theorem writePacketsGo_open : ∀ (pkts : List Nat) (q : QState) (n : Nat), q.closed = false →
    (writePacketsGo q pkts n).1.c = q.c ++ pkts.take (q.cap - q.c.length) ∧
    (writePacketsGo q pkts n).2.1 = n + min pkts.length (q.cap - q.c.length) ∧
    (writePacketsGo q pkts n).2.2 = none := by
  intro pkts
  induction pkts with
  | nil =>
    intro q n h
    simp [writePacketsGo]
  | cons p rest ih =>
    intro q n h
    by_cases hlt : q.c.length < q.cap
    · have hw : q.write p =
          ({ q with c := q.c ++ [p], rc := incRef q.rc p }, WriteResult.ok) := by
        simp [QState.write, h, hlt]
      obtain ⟨h1, h2, h3⟩ := ih { q with c := q.c ++ [p], rc := incRef q.rc p } (n + 1) h
      simp only [List.length_append, List.length_singleton] at h1 h2
      refine ⟨?_, ?_, ?_⟩
      · simp only [writePacketsGo, hw, h1]
        have hk : q.cap - q.c.length = (q.cap - (q.c.length + 1)) + 1 := by omega
        rw [hk, List.take_succ_cons]
        simp
      · simp only [writePacketsGo, hw, h2]
        have hk : q.cap - q.c.length = (q.cap - (q.c.length + 1)) + 1 := by omega
        rw [hk]
        simp only [List.length_cons]
        omega
      · simp only [writePacketsGo, hw, h3]
    · have hw : q.write p =
          ({ q with rc := decRef (incRef q.rc p) p }, WriteResult.errNoBufferSpace) := by
        simp [QState.write, h, hlt]
      have hk : q.cap - q.c.length = 0 := by omega
      refine ⟨?_, ?_, ?_⟩ <;> simp [writePacketsGo, hw, hk]

theorem drainList_spec : ∀ (c : List Nat) (rc : Nat → Int),
    (drainList c rc).2 = c.length ∧
    ∀ i, (drainList c rc).1 i = rc i - (c.count i : Int) := by
  intro c
  induction c with
  | nil =>
    intro rc
    simp [drainList]
  | cons p rest ih =>
    intro rc
    obtain ⟨h1, h2⟩ := ih (decRef rc p)
    constructor
    · simp [drainList, h1]
    · intro i
      have hi := h2 i
      simp only [drainList, hi, decRef, List.count_cons]
      by_cases hip : i = p
      · subst hip
        simp
        omega
      · have : ¬ (p == i) = true := by simpa using fun he => hip he.symm
        simp [hip, this]

theorem writePacketsLoop_pos : ∀ (outs : List WriteResult) (n : Nat), 1 ≤ n →
    (writePacketsLoop outs n).2 = none ∧ n ≤ (writePacketsLoop outs n).1 := by
  intro outs
  induction outs with
  | nil =>
    intro n h
    simp [writePacketsLoop]
  | cons o rest ih =>
    intro n h
    cases o with
    | ok =>
      obtain ⟨h1, h2⟩ := ih (n + 1) (by omega)
      exact ⟨by simp only [writePacketsLoop, h1], by simp only [writePacketsLoop]; omega⟩
    | errNoBufferSpace => simp [writePacketsLoop]
    | errClosedForSend =>
      have hn : ¬ n = 0 := by omega
      simp [writePacketsLoop, hn]

/-- C2 counterexample: with a batch of one packet against a full open queue,
`WritePackets` returns zero written and a nil error — so neither "at least one
packet is written" nor "a hard error is returned" holds for this call. -/
theorem writePackets_backpressure_cex :
    (writePackets qFullC2 [5]).2.1 = 0 ∧ (writePackets qFullC2 [5]).2.2 = none := by
  constructor <;> decide

/-- C2 (amended): if the first packet of a non-empty batch fails because the
queue is closed, the whole call fails with zero written and the hard
closed-for-send error; on an open queue the call never returns an error — it
enqueues packets in order until the queue is full, stops at the first
backpressure failure, and reports the count written so far (possibly zero) as
success. -/
theorem writePackets_batch_contract (q : QState) (pkts : List Nat) :
    (q.closed = true → pkts ≠ [] →
      writePackets q pkts = (q, 0, some WriteResult.errClosedForSend)) ∧
    (q.closed = false →
      (writePackets q pkts).2.2 = none ∧
      (writePackets q pkts).2.1 = min pkts.length (q.cap - q.c.length) ∧
      (writePackets q pkts).1.c = q.c ++ pkts.take (q.cap - q.c.length)) := by
  constructor
  · intro hc hne
    cases pkts with
    | nil => exact absurd rfl hne
    | cons p rest =>
      have hw : q.write p = (q, WriteResult.errClosedForSend) := by
        simp [QState.write, hc]
      simp [writePackets, writePacketsGo, hw]
  · intro hc
    obtain ⟨h1, h2, h3⟩ := writePacketsGo_open pkts q 0 hc
    exact ⟨h3, by simpa using h2, h1⟩

/-- C2 witness: a closed queue makes a one-packet batch fail hard with zero
written, and an open two-slot queue accepts exactly two of a three-packet
batch with a nil error. -/
theorem writePackets_batch_contract_witness :
    writePackets qClosedC2 [5] = (qClosedC2, 0, some WriteResult.errClosedForSend) ∧
    ((writePackets (emptyQ 2) [1, 2, 3]).2.2 = none ∧
      (writePackets (emptyQ 2) [1, 2, 3]).2.1 = min [1, 2, 3].length ((emptyQ 2).cap - (emptyQ 2).c.length) ∧
      (writePackets (emptyQ 2) [1, 2, 3]).1.c =
        (emptyQ 2).c ++ [1, 2, 3].take ((emptyQ 2).cap - (emptyQ 2).c.length)) :=
  ⟨(writePackets_batch_contract qClosedC2 [5]).1 rfl (by decide),
   (writePackets_batch_contract (emptyQ 2) [1, 2, 3]).2 rfl⟩

/-- C3: writing M packets one at a time into an empty queue of capacity N with
M ≤ N succeeds for every write, and reading the queue back returns exactly
those M packets in write order, with no duplication or loss. -/
theorem queue_fifo (pkts : List Nat) (cap : Nat) (h : pkts.length ≤ cap) :
    (writeSeq (emptyQ cap) pkts).2 = List.replicate pkts.length WriteResult.ok ∧
    readAll (writeSeq (emptyQ cap) pkts).1 = pkts := by
  obtain ⟨h1, h2⟩ := writeSeq_open pkts (emptyQ cap) rfl (by simp [emptyQ]; omega)
  refine ⟨h1, ?_⟩
  rw [readAll_eq, h2]
  simp [emptyQ]

/-- C3 witness: three packets into an empty queue of capacity three. -/
theorem queue_fifo_witness :
    [1, 2, 3].length ≤ 3 ∧
    ((writeSeq (emptyQ 3) [1, 2, 3]).2 = List.replicate [1, 2, 3].length WriteResult.ok ∧
      readAll (writeSeq (emptyQ 3) [1, 2, 3]).1 = [1, 2, 3]) :=
  ⟨by decide, queue_fifo [1, 2, 3] 3 (by decide)⟩

/-- C4: a `Write` on a closed queue fails with the closed-for-send condition
and leaves the state (including every reference count) untouched, whatever the
occupancy; a `Write` on an open queue already holding `cap` packets fails with
the no-buffer-space condition and its `DecRef` releases exactly the reference
the `select` acquired on entry, so the buffered contents — hence the depth —
and every reference count are left as they were before the call (state
unchanged on error; the packet's reference is released, not leaked). -/
theorem queue_write_closed_full (q : QState) (p : Nat) :
    (q.closed = true → q.write p = (q, WriteResult.errClosedForSend)) ∧
    (q.closed = false → q.c.length = q.cap →
      (q.write p).2 = WriteResult.errNoBufferSpace ∧
      (q.write p).1.c = q.c ∧
      (q.write p).1.closed = false ∧
      (q.write p).1.cap = q.cap ∧
      ∀ i, (q.write p).1.rc i = q.rc i) := by
  constructor
  · intro hc
    simp [QState.write, hc]
  · intro hc hfull
    have hnlt : ¬ q.c.length < q.cap := by omega
    have hw : q.write p =
        ({ q with rc := decRef (incRef q.rc p) p }, WriteResult.errNoBufferSpace) := by
      simp [QState.write, hc, hnlt]
    rw [hw]
    refine ⟨rfl, rfl, hc, rfl, fun i => ?_⟩
    by_cases hip : i = p <;> simp [decRef, incRef, hip]

/-- C4 witness: a closed empty queue rejects with closed-for-send and is
unchanged; a full open one-slot queue rejects packet 5 with no-buffer-space,
keeps its single buffered packet, and nets no reference-count change for
packet 5 (the release balances the acquire) nor for the buffered packet 9. -/
theorem queue_write_closed_full_witness :
    qClosedC4.write 5 = (qClosedC4, WriteResult.errClosedForSend) ∧
    (qFullC4.write 5).2 = WriteResult.errNoBufferSpace ∧
    (qFullC4.write 5).1.c = [9] ∧
    (qFullC4.write 5).1.rc 5 = 0 ∧
    (qFullC4.write 5).1.rc 9 = 0 :=
  ⟨(queue_write_closed_full qClosedC4 5).1 rfl,
   ((queue_write_closed_full qFullC4 5).2 rfl rfl).1,
   ((queue_write_closed_full qFullC4 5).2 rfl rfl).2.1,
   (((queue_write_closed_full qFullC4 5).2 rfl rfl).2.2.2.2 5).trans rfl,
   (((queue_write_closed_full qFullC4 5).2 rfl rfl).2.2.2.2 9).trans rfl⟩

/-- C6 counterexample: from a queue holding packet 7 and an already-cancelled
context, both receiving the packet and returning nil are possible outcomes of
`ReadContext`, so it neither always returns no value nor behaves
deterministically across runs from the same state. -/
theorem readContext_not_deterministic_cex :
    ¬ ((∀ o, ReadCtxOutcome qAvail true o → o.2 = none) ∨
       (∀ o o', ReadCtxOutcome qAvail true o → ReadCtxOutcome qAvail true o' → o = o')) := by
  intro hcl
  have hrecv : ReadCtxOutcome qAvail true ({ qAvail with c := [] }, some 7) :=
    ReadCtxOutcome.recv 7 [] rfl
  have hcanc : ReadCtxOutcome qAvail true (qAvail, none) :=
    ReadCtxOutcome.cancelled rfl
  rcases hcl with hall | hdet
  · have := hall _ hrecv
    simp at this
  · have := hdet _ _ hrecv hcanc
    have h2 := congrArg Prod.snd this
    simp at h2

/-- C6 (amended): with an already-cancelled signal, `ReadContext` may always
return immediately with no value; when the queue is empty that is its only
possible outcome; and when a packet is available the `select` may return
either the head packet or no value — the data-ready versus already-cancelled
precedence is a nondeterministic choice, not a deterministic one. -/
theorem readContext_cancelled_behavior (q : QState) :
    ReadCtxOutcome q true (q, none) ∧
    (∀ o, q.c = [] → ReadCtxOutcome q true o → o = (q, none)) ∧
    (∀ o, ReadCtxOutcome q true o →
      o = (q, none) ∨ ∃ p rest, q.c = p :: rest ∧ o = ({ q with c := rest }, some p)) := by
  refine ⟨ReadCtxOutcome.cancelled rfl, ?_, ?_⟩
  · intro o hc ho
    cases ho with
    | recv p rest h => rw [hc] at h; exact List.noConfusion h
    | cancelled h => rfl
    | closedEmpty h1 h2 => rfl
  · intro o ho
    cases ho with
    | recv p rest h => exact Or.inr ⟨p, rest, h, rfl⟩
    | cancelled h => exact Or.inl rfl
    | closedEmpty h1 h2 => exact Or.inl rfl

/-- C6 witness: on a concrete empty open queue with the signal already fired,
returning no value is a possible outcome and every possible outcome returns no
value. -/
theorem readContext_cancelled_behavior_witness :
    ReadCtxOutcome qEmptyC6 true (qEmptyC6, none) ∧
    ((qEmptyC6, (none : Option Nat)) = (qEmptyC6, none)) :=
  ⟨(readContext_cancelled_behavior qEmptyC6).1,
   (readContext_cancelled_behavior qEmptyC6).2.1 (qEmptyC6, none) rfl
     (ReadCtxOutcome.cancelled rfl)⟩

/-- C7: closing is idempotent — a second `Close` of the queue is the identity
on the already-closed state and touches no reference count, the closed flag
stays set, and a second `Close` of the link endpoint (which re-closes the
queue, re-flushes the empty GRO buffer, and drains the already-empty queue)
leaves the state exactly as after the first, so no packet's reference is
released twice. -/
theorem close_idempotent (q : QState) (l : LinkEndpoint) :
    q.close.close = q.close ∧
    q.close.rc = q.rc ∧
    q.close.closed = true ∧
    l.close.close = l.close := by
  exact ⟨rfl, rfl, rfl, rfl⟩

/-- C8 counterexample: for a concrete endpoint with two pending outbound
packets, the drain count is 2, yet `Close` reports nothing to its caller: its
set of returned-or-logged values is empty and in particular does not contain
the drain count. -/
theorem close_count_not_reported_cex :
    (lPend.drain).2 = 2 ∧ lPend.closeOutputs = [] ∧
    ¬ (lPend.drain).2 ∈ lPend.closeOutputs := by
  refine ⟨by decide, rfl, by decide⟩

/-- C8 (amended): `Close` closes the outbound queue, empties the buffered GRO
state, and drains the outbound queue, releasing exactly one reference per
buffered-but-undelivered packet; the discarded count equals the number of
pending packets and is the value `Drain` returns when called directly, but
`Close` itself neither returns nor logs it. -/
theorem close_drains_and_flushes (l : LinkEndpoint) :
    (l.close).q.closed = true ∧
    (l.close).q.c = [] ∧
    (l.close).groBuf = [] ∧
    (∀ i, (l.close).q.rc i = l.q.rc i - (l.q.c.count i : Int)) ∧
    (l.drain).2 = l.q.c.length ∧
    l.closeOutputs = [] := by
  obtain ⟨hd1, hd2⟩ := drainList_spec l.q.c l.q.rc
  refine ⟨rfl, rfl, rfl, ?_, ?_, rfl⟩
  · intro i
    exact hd2 i
  · exact hd1

/-- C10: over every possible sequence of per-packet write outcomes — including
a queue that transitions to closed in mid-batch — the `WritePackets` loop
returns a non-nil error only when zero packets were written, and once the
first packet has been accepted any later failure ends the batch with a nil
error and a count of at least one. -/
theorem writePackets_error_iff_zero (outs : List WriteResult) :
    ((writePacketsLoop outs 0).2 ≠ none → (writePacketsLoop outs 0).1 = 0) ∧
    (∀ rest : List WriteResult,
      (writePacketsLoop (WriteResult.ok :: rest) 0).2 = none ∧
      1 ≤ (writePacketsLoop (WriteResult.ok :: rest) 0).1) := by
  constructor
  · intro hne
    cases outs with
    | nil => simp [writePacketsLoop] at hne
    | cons o rest =>
      cases o with
      | ok =>
        obtain ⟨h1, h2⟩ := writePacketsLoop_pos rest 1 (by omega)
        rw [show writePacketsLoop (WriteResult.ok :: rest) 0 = writePacketsLoop rest 1 from rfl] at hne
        exact absurd h1 hne
      | errNoBufferSpace => simp [writePacketsLoop] at hne
      | errClosedForSend => simp [writePacketsLoop]
  · intro rest
    obtain ⟨h1, h2⟩ := writePacketsLoop_pos rest 1 (by omega)
    exact ⟨h1, h2⟩

/-- C10 witness: a closed-for-send failure on the first packet yields a count
of zero, while a success followed by a closed-for-send failure yields a nil
error. -/
theorem writePackets_error_iff_zero_witness :
    (writePacketsLoop [WriteResult.errClosedForSend] 0).1 = 0 ∧
    (writePacketsLoop [WriteResult.ok, WriteResult.errClosedForSend] 0).2 = none :=
  ⟨(writePackets_error_iff_zero [WriteResult.errClosedForSend]).1 (by decide),
   ((writePackets_error_iff_zero []).2 [WriteResult.errClosedForSend]).1⟩

theorem ipHdrStep_none4 (p : Parsed) (hv : p.ipVersion = 4)
    (h : p.buf.length < 20 ∨
      (ipv4HdrLen p.buf < 20 ∨ 60 < ipv4HdrLen p.buf ∨ p.buf.length < ipv4HdrLen p.buf) ∨
      checksum (p.buf.take (ipv4HdrLen p.buf)) 0 ≠ 65535) :
    ipHdrStep p = none := by
  unfold ipHdrStep
  by_cases h1 : p.buf.length < 20
  · rw [if_pos hv, if_pos h1]
  · by_cases h2 : ipv4HdrLen p.buf < 20 ∨ 60 < ipv4HdrLen p.buf ∨ p.buf.length < ipv4HdrLen p.buf
    · rw [if_pos hv, if_neg h1, if_pos h2]
    · have h3 : checksum (p.buf.take (ipv4HdrLen p.buf)) 0 ≠ 65535 := by tauto
      rw [if_pos hv, if_neg h1, if_neg h2, if_pos h3]

theorem rxChecksumOffload_none_of_step (p : Parsed) (h : ipHdrStep p = none) :
    rxChecksumOffload p = none := by
  simp [rxChecksumOffload, h]

theorem ipHdrStep_some_eq (p : Parsed) (x : Nat × Nat) (h : ipHdrStep p = some x) :
    x.1 = csumStartOf p ∧ x.2 = pnOf p := by
  unfold ipHdrStep at h
  unfold csumStartOf pnOf
  by_cases hv4 : p.ipVersion = 4
  · rw [if_pos hv4] at h
    rw [if_pos hv4, if_pos hv4]
    by_cases h1 : p.buf.length < 20
    · rw [if_pos h1] at h
      exact Option.noConfusion h
    · rw [if_neg h1] at h
      by_cases h2 : ipv4HdrLen p.buf < 20 ∨ 60 < ipv4HdrLen p.buf ∨ p.buf.length < ipv4HdrLen p.buf
      · rw [if_pos h2] at h
        exact Option.noConfusion h
      · rw [if_neg h2] at h
        by_cases h3 : checksum (p.buf.take (ipv4HdrLen p.buf)) 0 ≠ 65535
        · rw [if_pos h3] at h
          exact Option.noConfusion h
        · rw [if_neg h3] at h
          obtain ⟨rfl⟩ := Option.some.inj h.symm
          exact ⟨rfl, rfl⟩
  · rw [if_neg hv4] at h
    rw [if_neg hv4, if_neg hv4]
    by_cases hv6 : p.ipVersion = 6
    · rw [if_pos hv6] at h
      rw [if_pos hv6, if_pos hv6]
      by_cases h1 : p.buf.length < 40
      · rw [if_pos h1] at h
        exact Option.noConfusion h
      · rw [if_neg h1] at h
        obtain ⟨rfl⟩ := Option.some.inj h.symm
        exact ⟨rfl, rfl⟩
    · rw [if_neg hv6] at h
      rw [if_neg hv6, if_neg hv6]
      obtain ⟨rfl⟩ := Option.some.inj h.symm
      exact ⟨rfl, rfl⟩

theorem ipHdrStep_of_ok (p : Parsed) (hok : ipHeaderOk p = true) :
    ipHdrStep p = some (csumStartOf p, pnOf p) := by
  unfold ipHeaderOk at hok
  unfold ipHdrStep csumStartOf pnOf
  by_cases hv4 : p.ipVersion = 4
  · rw [if_pos hv4] at hok
    rw [if_pos hv4, if_pos hv4, if_pos hv4]
    simp only [Bool.and_eq_true, decide_eq_true_eq] at hok
    obtain ⟨⟨⟨⟨ha, hb⟩, hc⟩, hd⟩, he⟩ := hok
    rw [if_neg (by omega : ¬ p.buf.length < 20),
      if_neg (by omega :
        ¬ (ipv4HdrLen p.buf < 20 ∨ 60 < ipv4HdrLen p.buf ∨ p.buf.length < ipv4HdrLen p.buf)),
      if_neg (fun hne => hne he :
        ¬ checksum (p.buf.take (ipv4HdrLen p.buf)) 0 ≠ 65535)]
  · rw [if_neg hv4] at hok
    rw [if_neg hv4, if_neg hv4, if_neg hv4]
    by_cases hv6 : p.ipVersion = 6
    · rw [if_pos hv6] at hok
      rw [if_pos hv6, if_pos hv6, if_pos hv6]
      simp only [decide_eq_true_eq] at hok
      rw [if_neg (by omega : ¬ p.buf.length < 40)]
    · rw [if_neg hv6, if_neg hv6, if_neg hv6]

theorem rxChecksumOffload_some_eq (p : Parsed) (pb : PacketBuf)
    (h : rxChecksumOffload p = some pb) : pb = ⟨p.buf, pnOf p, true⟩ := by
  unfold rxChecksumOffload at h
  cases hstep : ipHdrStep p with
  | none =>
    rw [hstep] at h
    exact Option.noConfusion h
  | some x =>
    rw [hstep] at h
    obtain ⟨cs, pn⟩ := x
    dsimp only at h
    obtain ⟨hx1, hx2⟩ := ipHdrStep_some_eq p (cs, pn) hstep
    dsimp only at hx1 hx2
    by_cases hreq : needsTransportCsum p = true
    · rw [if_pos hreq] at h
      by_cases hcs : checksum (p.buf.drop cs)
          (pseudoHeaderChecksum (p.ipProto % 256) p.src p.dst
            ((p.buf.length - cs) % 65536)) ≠ 65535
      · rw [if_pos hcs] at h
        exact Option.noConfusion h
      · rw [if_neg hcs] at h
        rw [← Option.some.inj h, hx2]
    · rw [if_neg hreq] at h
      rw [← Option.some.inj h, hx2]

/-- C1: the checksum-offload validator derives the IPv4 header length as the
low 4 bits of the first byte times 4 and rejects a buffer shorter than 20
bytes, a derived length outside [20, 60] or exceeding the buffer, or a header
whose one's-complement checksum over exactly the derived length does not
complement to zero; it rejects an IPv6 packet shorter than 40 bytes and
places the transport checksum domain at byte 40; for TCP or UDP it rejects
unless the pseudo-header checksum seeded from source, destination and payload
length and extended over the transport segment complements to zero; and when
the header checks and any required transport check pass, it accepts. -/
theorem rxChecksumOffload_validates (p : Parsed) :
    (p.ipVersion = 4 → p.buf.length < 20 → rxChecksumOffload p = none) ∧
    (p.ipVersion = 4 →
      (ipv4HdrLen p.buf < 20 ∨ 60 < ipv4HdrLen p.buf ∨ p.buf.length < ipv4HdrLen p.buf) →
      rxChecksumOffload p = none) ∧
    (p.ipVersion = 4 → checksum (p.buf.take (ipv4HdrLen p.buf)) 0 ≠ 65535 →
      rxChecksumOffload p = none) ∧
    (p.ipVersion = 6 → p.buf.length < 40 → rxChecksumOffload p = none) ∧
    (p.ipVersion = 6 → csumStartOf p = 40) ∧
    (needsTransportCsum p = true → transportCsumOk p = false → rxChecksumOffload p = none) ∧
    (ipHeaderOk p = true → (needsTransportCsum p = true → transportCsumOk p = true) →
      ∃ pb, rxChecksumOffload p = some pb) := by
  refine ⟨?_, ?_, ?_, ?_, ?_, ?_, ?_⟩
  · intro hv hlen
    exact rxChecksumOffload_none_of_step p (ipHdrStep_none4 p hv (Or.inl hlen))
  · intro hv hd
    exact rxChecksumOffload_none_of_step p (ipHdrStep_none4 p hv (Or.inr (Or.inl hd)))
  · intro hv hcs
    exact rxChecksumOffload_none_of_step p (ipHdrStep_none4 p hv (Or.inr (Or.inr hcs)))
  · intro hv hlen
    apply rxChecksumOffload_none_of_step
    unfold ipHdrStep
    rw [if_neg (by simp [hv]), if_pos hv, if_pos hlen]
  · intro hv
    unfold csumStartOf
    rw [if_neg (by simp [hv]), if_pos hv]
  · intro hreq hbad
    have hcs : ¬ checksum (p.buf.drop (csumStartOf p))
        (pseudoHeaderChecksum (p.ipProto % 256) p.src p.dst
          ((p.buf.length - csumStartOf p) % 65536)) = 65535 := by
      simpa [transportCsumOk] using hbad
    cases hstep : ipHdrStep p with
    | none => exact rxChecksumOffload_none_of_step p hstep
    | some x =>
      obtain ⟨cs, pn⟩ := x
      obtain ⟨hx1, hx2⟩ := ipHdrStep_some_eq p (cs, pn) hstep
      dsimp only at hx1
      unfold rxChecksumOffload
      rw [hstep]
      dsimp only
      rw [if_pos hreq, hx1, if_pos hcs]
  · intro hok htr
    refine ⟨⟨p.buf, pnOf p, true⟩, ?_⟩
    have hstep := ipHdrStep_of_ok p hok
    unfold rxChecksumOffload
    rw [hstep]
    dsimp only
    by_cases hreq : needsTransportCsum p = true
    · rw [if_pos hreq]
      have hcs : checksum (p.buf.drop (csumStartOf p))
          (pseudoHeaderChecksum (p.ipProto % 256) p.src p.dst
            ((p.buf.length - csumStartOf p) % 65536)) = 65535 := by
        simpa [transportCsumOk] using htr hreq
      rw [if_neg (fun hne => hne hcs)]
    · rw [if_neg hreq]

/-- C1 witness: a one-byte IPv4 packet is rejected, and a concrete well-formed
20-byte IPv4 ICMP packet with a correct header checksum is accepted. -/
theorem rxChecksumOffload_validates_witness :
    rxChecksumOffload pktShort = none ∧ ∃ pb, rxChecksumOffload pkt4 = some pb :=
  ⟨(rxChecksumOffload_validates pktShort).1 rfl (by decide),
   (rxChecksumOffload_validates pkt4).2.2.2.2.2.2 (by decide)
     (fun h => absurd h (by decide))⟩

/-- C5: the validator is a total function — truncated IPv4 (under 20 bytes)
and IPv6 (under 40 bytes) inputs are handled by returning rejection, not by
any failure — it leaves its input untouched (it is a pure function of the
parsed packet), and whenever it accepts, the returned buffer's payload is the
(copied) input bytes, the checksum-validated mark is set, and the network
protocol number matches the packet's IP version. -/
theorem rxChecksumOffload_safety (p : Parsed) :
    (p.ipVersion = 4 → p.buf.length < 20 → rxChecksumOffload p = none) ∧
    (p.ipVersion = 6 → p.buf.length < 40 → rxChecksumOffload p = none) ∧
    (∀ pb, rxChecksumOffload p = some pb →
      pb.payload = p.buf ∧ pb.rxChecksumValidated = true ∧
      pb.networkProtocolNumber = pnOf p) := by
  refine ⟨?_, ?_, ?_⟩
  · intro hv hlen
    exact rxChecksumOffload_none_of_step p (ipHdrStep_none4 p hv (Or.inl hlen))
  · intro hv hlen
    apply rxChecksumOffload_none_of_step
    unfold ipHdrStep
    rw [if_neg (by simp [hv]), if_pos hv, if_pos hlen]
  · intro pb h
    rw [rxChecksumOffload_some_eq p pb h]
    exact ⟨rfl, rfl, rfl⟩

/-- C5 witness: a 39-byte IPv6 UDP packet is rejected, and the accepted
buffer for the concrete valid IPv4 packet carries its bytes, the validated
mark, and the IPv4 protocol number. -/
theorem rxChecksumOffload_safety_witness :
    rxChecksumOffload pktShort6 = none ∧
    ((PacketBuf.mk pkt4.buf 2048 true).payload = pkt4.buf ∧
      (PacketBuf.mk pkt4.buf 2048 true).rxChecksumValidated = true ∧
      (PacketBuf.mk pkt4.buf 2048 true).networkProtocolNumber = pnOf pkt4) :=
  ⟨(rxChecksumOffload_safety pktShort6).2.1 rfl (by decide),
   (rxChecksumOffload_safety pkt4).2.2 (PacketBuf.mk pkt4.buf 2048 true) (by decide)⟩

/-- C9: for a packet whose IP version field is neither 4 nor 6, the header
stage performs no length or checksum validation at all — it yields checksum
start 0 and protocol number 0 unconditionally — and if the transport protocol
is additionally neither TCP nor UDP the packet is accepted as a buffer with
network protocol number 0 and the checksum-validated mark set. -/
theorem rxChecksumOffload_other_version (p : Parsed)
    (h4 : p.ipVersion ≠ 4) (h6 : p.ipVersion ≠ 6) :
    ipHdrStep p = some (0, 0) ∧
    (p.ipProto ≠ 6 → p.ipProto ≠ 17 → rxChecksumOffload p = some ⟨p.buf, 0, true⟩) := by
  have hstep : ipHdrStep p = some (0, 0) := by
    unfold ipHdrStep
    rw [if_neg h4, if_neg h6]
  refine ⟨hstep, ?_⟩
  intro hp6 hp17
  have hreq : needsTransportCsum p = false := by
    simp [needsTransportCsum, hp6, hp17]
  unfold rxChecksumOffload
  rw [hstep]
  dsimp only
  rw [if_neg (by simp [hreq])]

/-- C9 witness: a concrete version-5 packet with protocol 47 skips all header
validation and is accepted with protocol number 0. -/
theorem rxChecksumOffload_other_version_witness :
    ipHdrStep pktOther = some (0, 0) ∧
    rxChecksumOffload pktOther = some ⟨[1, 2, 3], 0, true⟩ :=
  ⟨(rxChecksumOffload_other_version pktOther (by decide) (by decide)).1,
   (rxChecksumOffload_other_version pktOther (by decide) (by decide)).2
     (by decide) (by decide)⟩
